import Mathlib

/-!
Verification development for the ColorFinder program (`src/main.rs`).

Modelling conventions:

* `f64` values are embedded as exact rationals (`ℚ`).  Every arithmetic
  operation the program performs on `f64` is modelled by the exact
  operation on `ℚ`; a decimal literal such as `0.299` denotes the exact
  rational `299/1000`, which is the literal both the source and the spec
  use.  Where a claim depends on IEEE special values (NaN, infinities)
  they are modelled explicitly by the `FVal` type.
* Rust strings are modelled as `List Char` together with their UTF-8
  byte sizes, so that the source's byte-based `len()` and byte-range
  slicing (which can panic on a non-boundary index) are captured
  faithfully.
* A Rust computation that can return normally, return an error, or
  panic is modelled by `RustOutcome`.
-/

/-- Outcome of a Rust computation: normal value, recoverable error
(`Result::Err`), or a panic that aborts the process. -/
inductive RustOutcome (α : Type) (ε : Type) where
  | ok (a : α) : RustOutcome α ε
  | err (e : ε) : RustOutcome α ε
  | panicked : RustOutcome α ε
  deriving DecidableEq, Repr

/-- `struct ColorRGB { r: u8, g: u8, b: u8 }`; channels are naturals,
with the `≤ 255` range stated as a hypothesis where a claim needs it. -/
structure ColorRGB where
  r : ℕ
  g : ℕ
  b : ℕ
  deriving DecidableEq, Repr

/-- `struct ColorYCbCr { y: f64, cb: f64, cr: f64 }` in the exact
rational model of `f64`. -/
structure ColorYCbCr where
  y : ℚ
  cb : ℚ
  cr : ℚ
  deriving DecidableEq, Repr

/-- `struct NamedColor { name: String, ycbcr: ColorYCbCr }`. -/
structure NamedColor where
  name : String
  ycbcr : ColorYCbCr
  deriving DecidableEq, Repr

/-- `fn convert_ycbcr(rgb: ColorRGB) -> ColorYCbCr` (main.rs lines 45-53):
normalize each channel by 255, then apply the luma/chroma transform. -/
def convert_ycbcr (rgb : ColorRGB) : ColorYCbCr :=
  let r_norm : ℚ := (rgb.r : ℚ) / 255
  let g_norm : ℚ := (rgb.g : ℚ) / 255
  let b_norm : ℚ := (rgb.b : ℚ) / 255
  let y := 0.299 * r_norm + 0.587 * g_norm + 0.114 * b_norm
  let cb := 0.564 * (b_norm - y)
  let cr := 0.713 * (r_norm - y)
  ⟨y, cb, cr⟩

/-- `fn color_distance_sq(c1: ColorYCbCr, c2: ColorYCbCr) -> f64`
(main.rs lines 102-107). -/
def color_distance_sq (c1 c2 : ColorYCbCr) : ℚ :=
  let dy := c1.y - c2.y
  let dcb := c1.cb - c2.cb
  let dcr := c1.cr - c2.cr
  dy * dy + dcb * dcb + dcr * dcr

/-- Spec-side definition, following the spec's words for the RGB → YCbCr
conversion: "normalize each channel to [0,1] by dividing by 255. Compute
y = 0.299·r + 0.587·g + 0.114·b, cb = 0.564·(b − y), cr = 0.713·(r − y)".
Compared with the source-side `convert_ycbcr` in the refinement theorem. -/
def spec_convert_ycbcr (rgb : ColorRGB) : ColorYCbCr :=
  let r : ℚ := (rgb.r : ℚ) / 255
  let g : ℚ := (rgb.g : ℚ) / 255
  let b : ℚ := (rgb.b : ℚ) / 255
  { y := 0.299 * r + 0.587 * g + 0.114 * b
    cb := 0.564 * (b - (0.299 * r + 0.587 * g + 0.114 * b))
    cr := 0.713 * (r - (0.299 * r + 0.587 * g + 0.114 * b)) }

/-- C5: for every 8-bit RGB triple, the RGB→YCbCr conversion first
normalizes each channel to [0,1] by dividing by 255 and then returns
y = 0.299·r + 0.587·g + 0.114·b, cb = 0.564·(b − y), cr = 0.713·(r − y),
with exactly these constants (exact-rational model of `f64`). -/
theorem convert_ycbcr_matches_spec (rgb : ColorRGB) :
    convert_ycbcr rgb = spec_convert_ycbcr rgb := rfl

/-- C9: the squared-distance function is symmetric, vanishes exactly on
equal points, and vanishes on the diagonal. -/
theorem color_distance_sq_symm_and_zero_iff (a b : ColorYCbCr) :
    color_distance_sq a b = color_distance_sq b a ∧
    (color_distance_sq a b = 0 ↔ a = b) ∧
    color_distance_sq a a = 0 := by
  refine ⟨by unfold color_distance_sq; ring, ⟨fun h => ?_, fun h => ?_⟩, by
    unfold color_distance_sq; ring⟩
  · have h0 : (a.y - b.y) * (a.y - b.y) + (a.cb - b.cb) * (a.cb - b.cb) +
        (a.cr - b.cr) * (a.cr - b.cr) = 0 := h
    have h1 : a.y - b.y = 0 := by nlinarith [sq_nonneg (a.y - b.y), sq_nonneg (a.cb - b.cb), sq_nonneg (a.cr - b.cr)]
    have h2 : a.cb - b.cb = 0 := by nlinarith [sq_nonneg (a.y - b.y), sq_nonneg (a.cb - b.cb), sq_nonneg (a.cr - b.cr)]
    have h3 : a.cr - b.cr = 0 := by nlinarith [sq_nonneg (a.y - b.y), sq_nonneg (a.cb - b.cb), sq_nonneg (a.cr - b.cr)]
    cases a; cases b
    simp only [ColorYCbCr.mk.injEq]
    constructor
    · linarith
    constructor
    · linarith
    · linarith
  · subst h
    unfold color_distance_sq
    ring

/-- Model of an `f64` value: NaN, a signed infinity, or a finite value
(finite values carried exactly as rationals). -/
inductive FVal where
  | nan : FVal
  | inf (pos : Bool) : FVal
  | fin (q : ℚ) : FVal
  deriving DecidableEq, Repr

/-- IEEE addition on the model.  Finite overflow to infinity is not
modelled: a finite sum stays finite, which does not change any output of
this program because every sum here feeds `clamp(0,1)`, and a huge
finite value clamps to the same endpoint as the infinity it would have
overflowed to. -/
def FVal.add : FVal → FVal → FVal
  | nan, _ => nan
  | _, nan => nan
  | inf p, inf q => if p = q then inf p else nan
  | inf p, fin _ => inf p
  | fin _, inf p => inf p
  | fin a, fin b => fin (a + b)

/-- IEEE negation. -/
def FVal.neg : FVal → FVal
  | nan => nan
  | inf p => inf (!p)
  | fin a => fin (-a)

/-- IEEE subtraction. -/
def FVal.sub (x y : FVal) : FVal := x.add y.neg

/-- Multiplication by a finite nonzero rational constant (the program
only multiplies `f64` values by positive decimal literals). -/
def FVal.scale (c : ℚ) : FVal → FVal
  | nan => nan
  | inf p => if 0 < c then inf p else if c < 0 then inf (!p) else nan
  | fin a => fin (c * a)

/-- `f64::clamp(self, 0.0, 1.0)`: NaN propagates, infinities clamp to
the endpoints, finite values are restricted to [0,1]. -/
def FVal.clamp01 : FVal → FVal
  | nan => nan
  | inf p => if p then fin 1 else fin 0
  | fin a => fin (min 1 (max 0 a))

/-- `f64::round()`: round to nearest, ties away from zero. -/
def FVal.round : FVal → FVal
  | nan => nan
  | inf p => inf p
  | fin a => fin (((if 0 ≤ a then ⌊a + 1 / 2⌋ else -⌊-a + 1 / 2⌋ : ℤ)) : ℚ)

/-- Rust `as u8` on an `f64`: truncate toward zero and saturate to
[0,255]; NaN casts to 0. -/
def FVal.toU8 : FVal → ℕ
  | nan => 0
  | inf p => if p then 255 else 0
  | fin a => if a < 0 then 0 else min 255 ⌊a⌋.toNat

/-- Uppercase hexadecimal digit character for `n < 16`. -/
def hexDigitChar (n : ℕ) : Char :=
  if n < 10 then Char.ofNat (48 + n) else Char.ofNat (55 + n)

/-- Two-digit zero-padded uppercase hex rendering of a byte
(the `{:02X}` format specifier). -/
def hexByte (n : ℕ) : List Char :=
  [hexDigitChar (n / 16), hexDigitChar (n % 16)]

/-- A YCbCr triple of arbitrary `f64` values (including NaN and ±∞),
input type of the hex renderer. -/
structure FColorYCbCr where
  y : FVal
  cb : FVal
  cr : FVal
  deriving DecidableEq, Repr

/-- `fn convert_hex(ycbcr: ColorYCbCr) -> String` (main.rs lines 55-63):
invert the YCbCr transform, clamp each channel to [0,1], scale by 255,
round, cast to `u8`, and format as `#RRGGBB` in uppercase hex. -/
def convert_hex (ycbcr : FColorYCbCr) : String :=
  let r_norm := ycbcr.y.add (FVal.scale 1.402 ycbcr.cr)
  let g_norm := (ycbcr.y.sub (FVal.scale 0.344136 ycbcr.cb)).sub
    (FVal.scale 0.714136 ycbcr.cr)
  let b_norm := ycbcr.y.add (FVal.scale 1.772 ycbcr.cb)
  let r := ((FVal.scale 255 r_norm.clamp01).round).toU8
  let g := ((FVal.scale 255 g_norm.clamp01).round).toU8
  let b := ((FVal.scale 255 b_norm.clamp01).round).toU8
  String.mk ('#' :: (hexByte r ++ hexByte g ++ hexByte b))

/-- `convert_hex` applied to an ordinary finite YCbCr triple, as done by
`find_closest_color` on catalog points. -/
def convert_hexQ (c : ColorYCbCr) : String :=
  convert_hex ⟨.fin c.y, .fin c.cb, .fin c.cr⟩

theorem FVal.toU8_le (v : FVal) : v.toU8 ≤ 255 := by
  cases v with
  | nan => simp [toU8]
  | inf p => simp [toU8]; split <;> simp
  | fin a =>
    simp only [toU8]
    split
    · simp
    · exact Nat.min_le_left 255 _

theorem hexDigitChar_valid (n : ℕ) (h : n < 16) :
    ('0' ≤ hexDigitChar n ∧ hexDigitChar n ≤ '9') ∨
    ('A' ≤ hexDigitChar n ∧ hexDigitChar n ≤ 'F') := by
  interval_cases n <;> decide

theorem hexByte_valid (n : ℕ) (h : n ≤ 255) :
    ∀ ch ∈ hexByte n,
      ('0' ≤ ch ∧ ch ≤ '9') ∨ ('A' ≤ ch ∧ ch ≤ 'F') := by
  intro ch hch
  simp only [hexByte, List.mem_cons, List.not_mem_nil, or_false] at hch
  rcases hch with h1 | h2
  · subst h1; exact hexDigitChar_valid _ (by omega)
  · subst h2; exact hexDigitChar_valid _ (by omega)

/-- C10: for every YCbCr input, NaN and infinite components included,
`convert_hex` is total and its result is a 7-character string: `#`
followed by six uppercase hexadecimal digits. -/
theorem convert_hex_total_wellformed (c : FColorYCbCr) :
    (convert_hex c).length = 7 ∧
    (convert_hex c).data.head? = some '#' ∧
    ∀ ch ∈ (convert_hex c).data.tail,
      ('0' ≤ ch ∧ ch ≤ '9') ∨ ('A' ≤ ch ∧ ch ≤ 'F') := by
  unfold convert_hex
  refine ⟨?_, rfl, ?_⟩
  · simp [String.length, hexByte]
  · intro ch hch
    simp only [List.tail_cons, List.mem_append] at hch
    rcases hch with (h1 | h2) | h3
    · exact hexByte_valid _ (FVal.toU8_le _) ch h1
    · exact hexByte_valid _ (FVal.toU8_le _) ch h2
    · exact hexByte_valid _ (FVal.toU8_le _) ch h3

/-- `f64::MAX` as an exact rational: (2 − 2⁻⁵²)·2¹⁰²³. -/
def f64MAX : ℚ := 2 ^ 1024 - 2 ^ 971

/-- The for-loop of `find_closest_color` (main.rs lines 85-96): fold
over the remaining catalog carrying the running
(closest_name, min_distance_sq, closest point) state, updating only when
the candidate's squared distance is strictly smaller than the running
minimum. -/
def closest_scan (target : ColorYCbCr) :
    List NamedColor → String × ℚ × ColorYCbCr → String × ℚ × ColorYCbCr
  | [], acc => acc
  | c :: rest, acc =>
    if color_distance_sq target c.ycbcr < acc.2.1 then
      closest_scan target rest (c.name, color_distance_sq target c.ycbcr, c.ycbcr)
    else
      closest_scan target rest acc

/-- `fn find_closest_color(...)` (main.rs lines 81-100).  On an empty
catalog the source returns `("", f64::NAN, String::from("NULL"))`; the
NaN distance is modelled by `none`.  Otherwise the scan starts from
`("", f64::MAX, (0,0,0))` and the source finally returns
`min_distance_sq.sqrt()`; the model returns `some min_distance_sq`, the
exact radicand of the reported distance (square root is strictly
monotone, so carrying the radicand preserves all comparisons). -/
def find_closest_color (target : ColorYCbCr) (named_colors : List NamedColor) :
    String × Option ℚ × String :=
  if named_colors.isEmpty then ("", none, "NULL")
  else
    let res := closest_scan target named_colors ("", f64MAX, ⟨0, 0, 0⟩)
    (res.1, some res.2.1, convert_hexQ res.2.2)

theorem closest_scan_no_update (target : ColorYCbCr) (l : List NamedColor)
    (acc : String × ℚ × ColorYCbCr)
    (h : ∀ c ∈ l, ¬ color_distance_sq target c.ycbcr < acc.2.1) :
    closest_scan target l acc = acc := by
  induction l with
  | nil => rfl
  | cons c rest ih =>
    rw [closest_scan, if_neg (h c (List.mem_cons_self c rest))]
    exact ih (fun c' hc' => h c' (List.mem_cons_of_mem _ hc'))

theorem closest_scan_found (target : ColorYCbCr) (l : List NamedColor) :
    ∀ acc : String × ℚ × ColorYCbCr,
    (∃ c ∈ l, color_distance_sq target c.ycbcr < acc.2.1) →
    ∃ i : Fin l.length,
      closest_scan target l acc =
        ((l.get i).name, color_distance_sq target (l.get i).ycbcr,
          (l.get i).ycbcr) ∧
      color_distance_sq target (l.get i).ycbcr < acc.2.1 ∧
      (∀ c ∈ l, color_distance_sq target (l.get i).ycbcr ≤
        color_distance_sq target c.ycbcr) ∧
      (∀ j : Fin l.length, (j : ℕ) < (i : ℕ) →
        color_distance_sq target (l.get i).ycbcr <
          color_distance_sq target (l.get j).ycbcr) := by
  induction l with
  | nil => intro acc h; simp at h
  | cons c rest ih =>
    intro acc h
    by_cases hc : color_distance_sq target c.ycbcr < acc.2.1
    · by_cases hrest : ∃ c' ∈ rest,
        color_distance_sq target c'.ycbcr < color_distance_sq target c.ycbcr
      · obtain ⟨i', heq, hlt, hmin, hfirst⟩ :=
          ih (c.name, color_distance_sq target c.ycbcr, c.ycbcr) hrest
        refine ⟨i'.succ, ?_, ?_, ?_, ?_⟩
        · rw [closest_scan, if_pos hc]; exact heq
        · exact lt_trans hlt hc
        · intro c' hc'
          rcases List.mem_cons.mp hc' with rfl | hm
          · exact le_of_lt hlt
          · exact hmin c' hm
        · intro j hj
          rcases j with ⟨jv, hjv⟩
          cases jv with
          | zero => exact hlt
          | succ j'' =>
            exact hfirst ⟨j'', by simpa using hjv⟩ (by simpa using hj)
      · push_neg at hrest
        have hstay : closest_scan target rest
            (c.name, color_distance_sq target c.ycbcr, c.ycbcr) =
            (c.name, color_distance_sq target c.ycbcr, c.ycbcr) :=
          closest_scan_no_update target rest _
            (fun c' hc' => not_lt.mpr (hrest c' hc'))
        refine ⟨⟨0, by simp⟩, ?_, hc, ?_, ?_⟩
        · rw [closest_scan, if_pos hc, hstay]; rfl
        · intro c' hc'
          rcases List.mem_cons.mp hc' with rfl | hm
          · exact le_refl _
          · exact hrest c' hm
        · intro j hj
          simp at hj
    · have h' : ∃ c' ∈ rest, color_distance_sq target c'.ycbcr < acc.2.1 := by
        rcases h with ⟨c', hmem, hlt⟩
        rcases List.mem_cons.mp hmem with rfl | hm
        · exact absurd hlt hc
        · exact ⟨c', hm, hlt⟩
      obtain ⟨i', heq, hlt, hmin, hfirst⟩ := ih acc h'
      refine ⟨i'.succ, ?_, hlt, ?_, ?_⟩
      · rw [closest_scan, if_neg hc]; exact heq
      · intro c' hc'
        rcases List.mem_cons.mp hc' with rfl | hm
        · exact le_of_lt (lt_of_lt_of_le hlt (le_of_not_lt hc))
        · exact hmin c' hm
      · intro j hj
        rcases j with ⟨jv, hjv⟩
        cases jv with
        | zero => exact lt_of_lt_of_le hlt (le_of_not_lt hc)
        | succ j'' =>
          exact hfirst ⟨j'', by simpa using hjv⟩ (by simpa using hj)

/-- C1: on a non-empty catalog (whose squared distances to the query are
below `f64::MAX`, as holds for every catalog this program builds), the
search returns the name of the entry with minimum squared Euclidean
distance to the query; among ties the first entry in catalog order wins
(strict less-than comparison in a single linear pass), and the second
component is the exact radicand of the reported square-rooted minimal
distance. -/
theorem find_closest_color_correct (target : ColorYCbCr)
    (named_colors : List NamedColor)
    (hne : named_colors ≠ [])
    (hbound : ∀ c ∈ named_colors,
      color_distance_sq target c.ycbcr < f64MAX) :
    ∃ i : Fin named_colors.length,
      (find_closest_color target named_colors).1 =
        (named_colors.get i).name ∧
      (find_closest_color target named_colors).2.1 =
        some (color_distance_sq target (named_colors.get i).ycbcr) ∧
      (∀ c ∈ named_colors,
        color_distance_sq target (named_colors.get i).ycbcr ≤
          color_distance_sq target c.ycbcr) ∧
      (∀ j : Fin named_colors.length, (j : ℕ) < (i : ℕ) →
        color_distance_sq target (named_colors.get i).ycbcr <
          color_distance_sq target (named_colors.get j).ycbcr) := by
  have hex : ∃ c ∈ named_colors,
      color_distance_sq target c.ycbcr < (("", f64MAX,
        (⟨0, 0, 0⟩ : ColorYCbCr)) : String × ℚ × ColorYCbCr).2.1 := by
    cases named_colors with
    | nil => exact absurd rfl hne
    | cons c rest =>
      exact ⟨c, List.mem_cons_self c rest, hbound c (List.mem_cons_self c rest)⟩
  obtain ⟨i, heq, _, hmin, hfirst⟩ :=
    closest_scan_found target named_colors _ hex
  have hne' : named_colors.isEmpty = false := by
    cases named_colors with
    | nil => exact absurd rfl hne
    | cons c rest => rfl
  refine ⟨i, ?_, ?_, hmin, hfirst⟩
  · unfold find_closest_color
    rw [hne']
    simp only [Bool.false_eq_true, if_false, heq]
  · unfold find_closest_color
    rw [hne']
    simp only [Bool.false_eq_true, if_false, heq]

/-- C2 counterexample: invoked on the empty catalog, the search does not
fail with any error value — it returns the sentinel triple
`("", NaN, "NULL")` (the NaN distance modelled by `none`); its return
type `String × Option ℚ × String` has no error variant at all. -/
theorem find_closest_color_empty_counterexample :
    find_closest_color ⟨0, 0, 0⟩ [] = ("", none, "NULL") := rfl

/-- C2 amended: on an empty catalog the search returns the sentinel
triple `("", NaN, "NULL")` (NaN modelled by `none`) rather than an
explicit error; the caller (`main`, lines 149-152) guards the boundary
by exiting before any search when the catalog is empty. -/
theorem find_closest_color_empty_sentinel (target : ColorYCbCr) :
    find_closest_color target [] = ("", none, "NULL") := rfl

/-- Witness for C1 at a concrete catalog and query. -/
theorem find_closest_color_correct_witness :
    ([⟨"Red", convert_ycbcr ⟨255, 0, 0⟩⟩,
      ⟨"Black", convert_ycbcr ⟨0, 0, 0⟩⟩] : List NamedColor) ≠ [] ∧
    (∀ c ∈ ([⟨"Red", convert_ycbcr ⟨255, 0, 0⟩⟩,
      ⟨"Black", convert_ycbcr ⟨0, 0, 0⟩⟩] : List NamedColor),
      color_distance_sq (convert_ycbcr ⟨254, 1, 1⟩) c.ycbcr < f64MAX) ∧
    ∃ i : Fin ([⟨"Red", convert_ycbcr ⟨255, 0, 0⟩⟩,
      ⟨"Black", convert_ycbcr ⟨0, 0, 0⟩⟩] : List NamedColor).length,
      (find_closest_color (convert_ycbcr ⟨254, 1, 1⟩)
        [⟨"Red", convert_ycbcr ⟨255, 0, 0⟩⟩,
         ⟨"Black", convert_ycbcr ⟨0, 0, 0⟩⟩]).1 =
        (([⟨"Red", convert_ycbcr ⟨255, 0, 0⟩⟩,
          ⟨"Black", convert_ycbcr ⟨0, 0, 0⟩⟩] : List NamedColor).get i).name ∧
      (find_closest_color (convert_ycbcr ⟨254, 1, 1⟩)
        [⟨"Red", convert_ycbcr ⟨255, 0, 0⟩⟩,
         ⟨"Black", convert_ycbcr ⟨0, 0, 0⟩⟩]).2.1 =
        some (color_distance_sq (convert_ycbcr ⟨254, 1, 1⟩)
          (([⟨"Red", convert_ycbcr ⟨255, 0, 0⟩⟩,
            ⟨"Black", convert_ycbcr ⟨0, 0, 0⟩⟩] : List NamedColor).get i).ycbcr) ∧
      (∀ c ∈ ([⟨"Red", convert_ycbcr ⟨255, 0, 0⟩⟩,
          ⟨"Black", convert_ycbcr ⟨0, 0, 0⟩⟩] : List NamedColor),
        color_distance_sq (convert_ycbcr ⟨254, 1, 1⟩)
          (([⟨"Red", convert_ycbcr ⟨255, 0, 0⟩⟩,
            ⟨"Black", convert_ycbcr ⟨0, 0, 0⟩⟩] : List NamedColor).get i).ycbcr ≤
          color_distance_sq (convert_ycbcr ⟨254, 1, 1⟩) c.ycbcr) ∧
      (∀ j : Fin ([⟨"Red", convert_ycbcr ⟨255, 0, 0⟩⟩,
          ⟨"Black", convert_ycbcr ⟨0, 0, 0⟩⟩] : List NamedColor).length,
        (j : ℕ) < (i : ℕ) →
        color_distance_sq (convert_ycbcr ⟨254, 1, 1⟩)
          (([⟨"Red", convert_ycbcr ⟨255, 0, 0⟩⟩,
            ⟨"Black", convert_ycbcr ⟨0, 0, 0⟩⟩] : List NamedColor).get i).ycbcr <
          color_distance_sq (convert_ycbcr ⟨254, 1, 1⟩)
            (([⟨"Red", convert_ycbcr ⟨255, 0, 0⟩⟩,
              ⟨"Black", convert_ycbcr ⟨0, 0, 0⟩⟩] : List NamedColor).get j).ycbcr) :=
  ⟨by simp,
    by
      intro c hc
      simp only [List.mem_cons, List.not_mem_nil, or_false] at hc
      rcases hc with rfl | rfl <;>
        norm_num [color_distance_sq, convert_ycbcr, f64MAX],
    find_closest_color_correct (convert_ycbcr ⟨254, 1, 1⟩)
      [⟨"Red", convert_ycbcr ⟨255, 0, 0⟩⟩, ⟨"Black", convert_ycbcr ⟨0, 0, 0⟩⟩]
      (by simp)
      (by
        intro c hc
        simp only [List.mem_cons, List.not_mem_nil, or_false] at hc
        rcases hc with rfl | rfl <;>
          norm_num [color_distance_sq, convert_ycbcr, f64MAX])⟩

/-- The three channels, used to tag which component a digit error
concerns ("Invalid hex R/G/B component"). -/
inductive Channel where
  | R : Channel
  | G : Channel
  | B : Channel
  deriving DecidableEq, Repr

/-- The error taxonomy of `hex_to_rgb`: the shape error
"Invalid hex format. Must be '#RRGGBB'." and the channel-tagged
"Invalid hex R/G/B component" errors. -/
inductive HexError where
  | formatError : HexError
  | digitError (ch : Channel) : HexError
  deriving DecidableEq, Repr

/-- UTF-8 byte length of a string (Rust `str::len`). -/
def utf8Len (s : List Char) : ℕ := (s.map Char.utf8Size).sum

/-- Drop the first `n` bytes of a UTF-8 string; `none` when `n` is not a
character boundary (or past the end). -/
def dropBytes : List Char → ℕ → Option (List Char)
  | s, 0 => some s
  | [], _ + 1 => none
  | c :: rest, n + 1 =>
    if c.utf8Size ≤ n + 1 then dropBytes rest (n + 1 - c.utf8Size) else none

/-- Take the first `n` bytes of a UTF-8 string; `none` when `n` is not a
character boundary (or past the end). -/
def takeBytes : List Char → ℕ → Option (List Char)
  | _, 0 => some []
  | [], _ + 1 => none
  | c :: rest, n + 1 =>
    if c.utf8Size ≤ n + 1 then
      (takeBytes rest (n + 1 - c.utf8Size)).map (fun l => c :: l)
    else none

/-- The Rust byte-range slice `&s[a..b]`; `none` models the panic
"byte index is not a char boundary" (or an out-of-bounds index). -/
def sliceBytes (s : List Char) (a b : ℕ) : Option (List Char) :=
  (dropBytes s a).bind (fun t => takeBytes t (b - a))

/-- Base-16 digit test of `char::to_digit(16)`: `0-9`, `a-f`, `A-F`. -/
def isHexDigit (c : Char) : Bool :=
  (48 ≤ c.toNat && c.toNat ≤ 57) ||
  (97 ≤ c.toNat && c.toNat ≤ 102) ||
  (65 ≤ c.toNat && c.toNat ≤ 70)

/-- Base-16 digit value of a character satisfying `isHexDigit`. -/
def hexVal (c : Char) : ℕ :=
  if 48 ≤ c.toNat ∧ c.toNat ≤ 57 then c.toNat - 48
  else if 97 ≤ c.toNat ∧ c.toNat ≤ 102 then c.toNat - 87
  else c.toNat - 55

/-- The digit loop of `u8::from_str_radix(_, 16)`: accumulate base-16
digits with an overflow check against `u8::MAX`. -/
def radixDigits (acc : ℕ) : List Char → Option ℕ
  | [] => some acc
  | c :: rest =>
    if isHexDigit c then
      if acc * 16 + hexVal c ≤ 255 then radixDigits (acc * 16 + hexVal c) rest
      else none
    else none

/-- `u8::from_str_radix(s, 16)`: an optional leading `+` (a `-` is not
consumed for an unsigned type), then one or more base-16 digits,
overflow-checked; `none` models `Err(ParseIntError)`. -/
def from_str_radix_u8 (s : List Char) : Option ℕ :=
  match s with
  | [] => none
  | '+' :: rest => if rest.isEmpty then none else radixDigits 0 rest
  | _ => radixDigits 0 s

/-- `fn hex_to_rgb(hex: &str) -> Result<ColorRGB, &'static str>`
(main.rs lines 65-80): byte-based length test, byte-range slices at
offsets 1,3,5,7, then per-channel `u8::from_str_radix(_, 16)`.
`.panicked` models the panic of a byte-range slice whose endpoint is
not a character boundary. -/
def hex_to_rgb (hex : List Char) : RustOutcome ColorRGB HexError :=
  if utf8Len hex ≠ 7 ∨ hex.head? ≠ some '#' then .err .formatError
  else
    match sliceBytes hex 1 3, sliceBytes hex 3 5, sliceBytes hex 5 7 with
    | some r_hex, some g_hex, some b_hex =>
      match from_str_radix_u8 r_hex with
      | none => .err (.digitError .R)
      | some r =>
        match from_str_radix_u8 g_hex with
        | none => .err (.digitError .G)
        | some g =>
          match from_str_radix_u8 b_hex with
          | none => .err (.digitError .B)
          | some b => .ok ⟨r, g, b⟩
    | _, _, _ => .panicked

/-- C3 counterexample: `"#+1+2+3"` is 7 characters, starts with `#`,
and its six remaining characters are not all hexadecimal digits, yet
parsing succeeds with `(r,g,b) = (1,2,3)` because `u8::from_str_radix`
accepts an optional leading `+` in each 2-character component. -/
theorem hex_to_rgb_plus_counterexample :
    hex_to_rgb "#+1+2+3".toList = .ok ⟨1, 2, 3⟩ ∧
    ¬ ∀ c ∈ "#+1+2+3".toList.tail, isHexDigit c = true := by
  constructor
  · decide
  · decide

/-- Outcome of the interactive query path of `main`: a successful
search report, a reported bad input followed by the normal `Ok(())`
exit, or a process crash. -/
inductive QueryOutcome where
  | matched (result : String × Option ℚ × String) : QueryOutcome
  | badInput (e : HexError) : QueryOutcome
  | crashed : QueryOutcome
  deriving DecidableEq, Repr

/-- The interactive query path of `main` (main.rs lines 157-169): parse
the input line; on success run the search and print the report, on a
parse error print the error message and fall through to the normal
`Ok(())` exit; a panic inside parsing crashes the process. -/
def process_query (input : List Char) (named_colors : List NamedColor) :
    QueryOutcome :=
  match hex_to_rgb input with
  | .ok rgb => .matched (find_closest_color (convert_ycbcr rgb) named_colors)
  | .err e => .badInput e
  | .panicked => .crashed

/-- C4 counterexample: the 7-byte input `"#a€ab"` (the euro sign spans
bytes 2-4) passes the length/prefix test, but the byte-range slice
`&hex[1..3]` then panics because byte offset 3 is not a character
boundary, so the query path crashes instead of reporting an error. -/
theorem process_query_panic_counterexample :
    process_query "#a€ab".toList [] = QueryOutcome.crashed ∧
    hex_to_rgb "#a€ab".toList = .panicked := by
  constructor
  · decide
  · decide

theorem utf8Len_ascii (s : List Char) (h : ∀ c ∈ s, c.utf8Size = 1) :
    utf8Len s = s.length := by
  induction s with
  | nil => rfl
  | cons c rest ih =>
    simp only [utf8Len, List.map_cons, List.sum_cons, List.length_cons]
    rw [h c (List.mem_cons_self c rest)]
    have := ih (fun c' hc' => h c' (List.mem_cons_of_mem _ hc'))
    simp only [utf8Len] at this
    omega

theorem dropBytes_ascii (s : List Char) (n : ℕ)
    (h : ∀ c ∈ s, c.utf8Size = 1) (hn : n ≤ s.length) :
    dropBytes s n = some (s.drop n) := by
  induction s generalizing n with
  | nil =>
    cases n with
    | zero => rfl
    | succ m => simp at hn
  | cons c rest ih =>
    cases n with
    | zero => rfl
    | succ m =>
      rw [dropBytes, if_pos (by rw [h c (List.mem_cons_self c rest)]; omega)]
      rw [h c (List.mem_cons_self c rest)]
      simp only [Nat.add_sub_cancel, List.drop_succ_cons]
      exact ih m (fun c' hc' => h c' (List.mem_cons_of_mem _ hc'))
        (by simpa using hn)

theorem takeBytes_ascii (s : List Char) (n : ℕ)
    (h : ∀ c ∈ s, c.utf8Size = 1) (hn : n ≤ s.length) :
    takeBytes s n = some (s.take n) := by
  induction s generalizing n with
  | nil =>
    cases n with
    | zero => rfl
    | succ m => simp at hn
  | cons c rest ih =>
    cases n with
    | zero => rfl
    | succ m =>
      rw [takeBytes, if_pos (by rw [h c (List.mem_cons_self c rest)]; omega)]
      rw [h c (List.mem_cons_self c rest)]
      simp only [Nat.add_sub_cancel, List.take_succ_cons]
      rw [ih m (fun c' hc' => h c' (List.mem_cons_of_mem _ hc'))
        (by simpa using hn)]
      rfl

theorem sliceBytes_ascii (s : List Char) (a b : ℕ)
    (h : ∀ c ∈ s, c.utf8Size = 1) (hab : a ≤ b) (hb : b ≤ s.length) :
    sliceBytes s a b = some ((s.drop a).take (b - a)) := by
  unfold sliceBytes
  rw [dropBytes_ascii s a h (le_trans hab hb)]
  simp only [Option.some_bind]
  exact takeBytes_ascii _ _
    (fun c hc => h c (List.mem_of_mem_drop hc))
    (by rw [List.length_drop]; omega)

theorem hexVal_le_15 (c : Char) (h : isHexDigit c = true) : hexVal c ≤ 15 := by
  have h' : (48 ≤ c.toNat ∧ c.toNat ≤ 57) ∨ (97 ≤ c.toNat ∧ c.toNat ≤ 102) ∨
      (65 ≤ c.toNat ∧ c.toNat ≤ 70) := by
    simpa [isHexDigit, Bool.or_eq_true, Bool.and_eq_true, decide_eq_true_eq,
      or_assoc] using h
  unfold hexVal
  split
  · omega
  · split
    · omega
    · omega

/-- Spec-side value of one 2-character hex component, following the
amended reading of the spec: either two base-16 digits, or an optional
leading `+` followed by a single base-16 digit (the form
`u8::from_str_radix` also accepts). -/
def pairVal (p : List Char) : Option ℕ :=
  match p with
  | [c1, c2] =>
    if c1 = '+' then
      if isHexDigit c2 then some (hexVal c2) else none
    else if isHexDigit c1 && isHexDigit c2 then
      some (hexVal c1 * 16 + hexVal c2)
    else none
  | _ => none

theorem from_str_radix_eq_pairVal (p : List Char) (hp : p.length = 2) :
    from_str_radix_u8 p = pairVal p := by
  match p, hp with
  | [c1, c2], _ =>
    by_cases h1 : c1 = '+'
    · subst h1
      simp only [from_str_radix_u8, pairVal, List.isEmpty_cons, if_false]
      by_cases h2 : isHexDigit c2
      · have hv := hexVal_le_15 c2 h2
        rw [radixDigits, if_pos h2,
          if_pos (by omega : 0 * 16 + hexVal c2 ≤ 255), radixDigits]
        simp [h2]
      · rw [radixDigits, if_neg h2]
        simp [h2]
    · have hform : from_str_radix_u8 [c1, c2] = radixDigits 0 [c1, c2] := by
        unfold from_str_radix_u8
        split
        · simp_all
        · simp_all
        · rfl
      rw [hform]
      by_cases hd1 : isHexDigit c1
      · have hv1 := hexVal_le_15 c1 hd1
        rw [radixDigits, if_pos hd1,
          if_pos (by omega : 0 * 16 + hexVal c1 ≤ 255)]
        by_cases hd2 : isHexDigit c2
        · have hv2 := hexVal_le_15 c2 hd2
          rw [radixDigits, if_pos hd2,
            if_pos (by omega : (0 * 16 + hexVal c1) * 16 + hexVal c2 ≤ 255),
            radixDigits]
          simp only [pairVal, if_neg h1, hd1, hd2, Bool.and_self, if_pos]
          congr 1
          omega
        · rw [radixDigits, if_neg hd2]
          simp [pairVal, h1, hd1, hd2]
      · rw [radixDigits, if_neg hd1]
        simp [pairVal, h1, hd1]

/-- Spec-side (amended) description of hex parsing on single-byte
input: exactly 7 characters starting with `#` (else the format error),
then three 2-character components, each either two case-insensitive
hexadecimal digits or an optional `+` followed by one hexadecimal
digit; the first invalid component yields its channel's digit error.
No trimming or whitespace tolerance. -/
def spec_hex_parse (s : List Char) : RustOutcome ColorRGB HexError :=
  if s.length ≠ 7 ∨ s.head? ≠ some '#' then .err .formatError
  else
    match pairVal ((s.drop 1).take 2) with
    | none => .err (.digitError .R)
    | some r =>
      match pairVal ((s.drop 3).take 2) with
      | none => .err (.digitError .G)
      | some g =>
        match pairVal ((s.drop 5).take 2) with
        | none => .err (.digitError .B)
        | some b => .ok ⟨r, g, b⟩

theorem hex_to_rgb_ascii_eq (s : List Char)
    (h : ∀ c ∈ s, c.utf8Size = 1) :
    hex_to_rgb s = spec_hex_parse s := by
  unfold hex_to_rgb spec_hex_parse
  rw [utf8Len_ascii s h]
  by_cases hcond : s.length ≠ 7 ∨ s.head? ≠ some '#'
  · rw [if_pos hcond, if_pos hcond]
  · rw [if_neg hcond, if_neg hcond]
    push_neg at hcond
    obtain ⟨hlen, _⟩ := hcond
    have h13 : sliceBytes s 1 3 = some ((s.drop 1).take 2) :=
      sliceBytes_ascii s 1 3 h (by omega) (by omega)
    have h35 : sliceBytes s 3 5 = some ((s.drop 3).take 2) :=
      sliceBytes_ascii s 3 5 h (by omega) (by omega)
    have h57 : sliceBytes s 5 7 = some ((s.drop 5).take 2) :=
      sliceBytes_ascii s 5 7 h (by omega) (by omega)
    have l13 : ((s.drop 1).take 2).length = 2 := by
      simp only [List.length_take, List.length_drop]; omega
    have l35 : ((s.drop 3).take 2).length = 2 := by
      simp only [List.length_take, List.length_drop]; omega
    have l57 : ((s.drop 5).take 2).length = 2 := by
      simp only [List.length_take, List.length_drop]; omega
    rw [h13, h35, h57]
    dsimp only
    rw [from_str_radix_eq_pairVal _ l13,
      from_str_radix_eq_pairVal _ l35, from_str_radix_eq_pairVal _ l57]

/-- C3 amended: on single-byte (ASCII) input, hex parsing succeeds
exactly on 7-character strings `#` + three 2-character components each
of which is two case-insensitive hex digits or an optional `+` followed
by one hex digit (so inputs such as `"#+1+2+3"` also succeed); a wrong
length or missing `#` prefix yields the format error, and otherwise the
first invalid component yields its channel-tagged digit error; there is
no trimming.  (On non-ASCII input parsing can panic instead: see the C4
counterexample.) -/
theorem hex_to_rgb_ascii_spec (s : List Char)
    (h : ∀ c ∈ s, c.utf8Size = 1) :
    hex_to_rgb s = spec_hex_parse s := hex_to_rgb_ascii_eq s h

/-- Witness for the amended C3 at concrete ASCII inputs. -/
theorem hex_to_rgb_ascii_spec_witness :
    (∀ c ∈ "#1A2b3C".toList, c.utf8Size = 1) ∧
    hex_to_rgb "#1A2b3C".toList = spec_hex_parse "#1A2b3C".toList :=
  ⟨by decide, hex_to_rgb_ascii_spec "#1A2b3C".toList (by decide)⟩

theorem spec_hex_parse_ne_panicked (s : List Char) :
    spec_hex_parse s ≠ RustOutcome.panicked := by
  unfold spec_hex_parse
  repeat' split
  all_goals simp

/-- C4 amended: on single-byte (ASCII) input the interactive query path
never crashes — parsing either succeeds or returns the documented error
value, and a malformed input is reported to the user (`badInput`) after
which the process continues to its normal exit.  (A non-ASCII input
whose byte offset 3 or 5 splits a multi-byte character panics instead:
see the counterexample.) -/
theorem process_query_ascii_no_crash (input : List Char)
    (named_colors : List NamedColor)
    (h : ∀ c ∈ input, c.utf8Size = 1) :
    process_query input named_colors ≠ QueryOutcome.crashed ∧
    ∀ e, hex_to_rgb input = .err e →
      process_query input named_colors = .badInput e := by
  have heq := hex_to_rgb_ascii_eq input h
  constructor
  · unfold process_query
    cases hR : hex_to_rgb input with
    | ok rgb => simp
    | err e => simp
    | panicked =>
      rw [heq] at hR
      exact absurd hR (spec_hex_parse_ne_panicked input)
  · intro e he
    unfold process_query
    rw [he]

/-- Witness for the amended C4 at a concrete malformed ASCII input. -/
theorem process_query_ascii_no_crash_witness :
    (∀ c ∈ "zzz".toList, c.utf8Size = 1) ∧
    (process_query "zzz".toList [] ≠ QueryOutcome.crashed ∧
      ∀ e, hex_to_rgb "zzz".toList = .err e →
        process_query "zzz".toList [] = .badInput e) :=
  ⟨by decide, process_query_ascii_no_crash "zzz".toList [] (by decide)⟩

/-- One deserialized CSV row (`struct CsvColorRecord`): the `Name`
column and the `Hex (24 bit)` column. -/
structure CsvColorRecord where
  name : String
  hex : List Char
  deriving DecidableEq, Repr

/-- `fn load_and_process_colors` (main.rs lines 109-133), with the CSV
reader — an external collaborator — abstracted as the list of already
deserialized records.  A row whose hex fails to parse is skipped (the
source prints a diagnostic to stderr) and loading continues; `none`
models a panic escaping `hex_to_rgb` and aborting the load. -/
def load_and_process_colors :
    List CsvColorRecord → Option (List NamedColor)
  | [] => some []
  | row :: rest =>
    match hex_to_rgb row.hex with
    | .ok rgb =>
      (load_and_process_colors rest).map
        (fun cat => ⟨row.name, convert_ycbcr rgb⟩ :: cat)
    | .err _ => load_and_process_colors rest
    | .panicked => none

/-- C7: when loading completes, the in-memory catalog is exactly the
in-order image of the rows whose hex value parsed successfully — every
catalog entry originates from a successfully parsed row, and every row
whose hex fails to parse is skipped (loading continues) and never
appears in the catalog. -/
theorem load_and_process_colors_spec (records : List CsvColorRecord)
    (catalog : List NamedColor)
    (h : load_and_process_colors records = some catalog) :
    catalog = records.filterMap (fun row =>
      match hex_to_rgb row.hex with
      | .ok rgb => some ⟨row.name, convert_ycbcr rgb⟩
      | _ => none) ∧
    ∀ nc ∈ catalog, ∃ row ∈ records, ∃ rgb,
      hex_to_rgb row.hex = .ok rgb ∧
      nc = ⟨row.name, convert_ycbcr rgb⟩ := by
  have hmain : ∀ (rs : List CsvColorRecord) (cat : List NamedColor),
      load_and_process_colors rs = some cat →
      cat = rs.filterMap (fun row =>
        match hex_to_rgb row.hex with
        | .ok rgb => some ⟨row.name, convert_ycbcr rgb⟩
        | _ => none) := by
    intro rs
    induction rs with
    | nil =>
      intro cat hc
      simp only [load_and_process_colors, Option.some.injEq] at hc
      simp [← hc]
    | cons row rest ih =>
      intro cat hc
      rw [load_and_process_colors] at hc
      cases hr : hex_to_rgb row.hex with
      | ok rgb =>
        rw [hr] at hc
        obtain ⟨cat', hcat', rfl⟩ := Option.map_eq_some'.mp hc
        simp only [List.filterMap_cons, hr]
        rw [← ih cat' hcat']
      | err e =>
        rw [hr] at hc
        simp only [List.filterMap_cons, hr]
        exact ih cat hc
      | panicked =>
        rw [hr] at hc
        cases hc
  have h1 := hmain records catalog h
  refine ⟨h1, ?_⟩
  intro nc hnc
  rw [h1] at hnc
  obtain ⟨row, hrow, hf⟩ := List.mem_filterMap.mp hnc
  refine ⟨row, hrow, ?_⟩
  cases hr : hex_to_rgb row.hex with
  | ok rgb =>
    rw [hr] at hf
    exact ⟨rgb, rfl, (Option.some.injEq _ _).mp hf |>.symm⟩
  | err e => rw [hr] at hf; cases hf
  | panicked => rw [hr] at hf; cases hf

/-- Witness for C7: a load with one malformed row in the middle. -/
theorem load_and_process_colors_spec_witness :
    load_and_process_colors
      [⟨"Red", "#FF0000".toList⟩, ⟨"Bad", "#GGGGGG".toList⟩,
        ⟨"Black", "#000000".toList⟩] =
      some [⟨"Red", convert_ycbcr ⟨255, 0, 0⟩⟩,
        ⟨"Black", convert_ycbcr ⟨0, 0, 0⟩⟩] ∧
    ([⟨"Red", convert_ycbcr ⟨255, 0, 0⟩⟩,
      ⟨"Black", convert_ycbcr ⟨0, 0, 0⟩⟩] : List NamedColor) =
      ([⟨"Red", "#FF0000".toList⟩, ⟨"Bad", "#GGGGGG".toList⟩,
        ⟨"Black", "#000000".toList⟩] : List CsvColorRecord).filterMap
        (fun row =>
          match hex_to_rgb row.hex with
          | .ok rgb => some ⟨row.name, convert_ycbcr rgb⟩
          | _ => none) ∧
    ∀ nc ∈ ([⟨"Red", convert_ycbcr ⟨255, 0, 0⟩⟩,
      ⟨"Black", convert_ycbcr ⟨0, 0, 0⟩⟩] : List NamedColor),
      ∃ row ∈ ([⟨"Red", "#FF0000".toList⟩, ⟨"Bad", "#GGGGGG".toList⟩,
        ⟨"Black", "#000000".toList⟩] : List CsvColorRecord), ∃ rgb,
        hex_to_rgb row.hex = .ok rgb ∧
        nc = ⟨row.name, convert_ycbcr rgb⟩ :=
  ⟨rfl,
    (load_and_process_colors_spec
      [⟨"Red", "#FF0000".toList⟩, ⟨"Bad", "#GGGGGG".toList⟩,
        ⟨"Black", "#000000".toList⟩]
      [⟨"Red", convert_ycbcr ⟨255, 0, 0⟩⟩,
        ⟨"Black", convert_ycbcr ⟨0, 0, 0⟩⟩] rfl).1,
    (load_and_process_colors_spec
      [⟨"Red", "#FF0000".toList⟩, ⟨"Bad", "#GGGGGG".toList⟩,
        ⟨"Black", "#000000".toList⟩]
      [⟨"Red", convert_ycbcr ⟨255, 0, 0⟩⟩,
        ⟨"Black", convert_ycbcr ⟨0, 0, 0⟩⟩] rfl).2⟩

/-- Round to the nearest integer, ties away from zero (the `f64::round`
rounding mode, one of the two the spec allows). -/
def roundHalfAway (q : ℚ) : ℤ :=
  if 0 ≤ q then ⌊q + 1 / 2⌋ else -⌊-q + 1 / 2⌋

/-- Spec-side definition of the YCbCr → hex rendering, following the
spec's words: r = y + 1.402·cr, g = y − 0.344136·cb − 0.714136·cr,
b = y + 1.772·cb, each channel clamped to [0,1], scaled to [0,255],
rounded to the nearest integer (ties away from zero, the source's
choice), and formatted as `#` plus six uppercase zero-padded hex
digits. -/
def spec_convert_hex (y cb cr : ℚ) : String :=
  let r := y + 1.402 * cr
  let g := y - 0.344136 * cb - 0.714136 * cr
  let b := y + 1.772 * cb
  String.mk ('#' ::
    (hexByte (roundHalfAway (min 1 (max 0 r) * 255)).toNat ++
     hexByte (roundHalfAway (min 1 (max 0 g) * 255)).toNat ++
     hexByte (roundHalfAway (min 1 (max 0 b) * 255)).toNat))

theorem channel_fin_eq (x : ℚ) :
    ((FVal.scale 255 (FVal.clamp01 (FVal.fin x))).round).toU8 =
      (roundHalfAway (min 1 (max 0 x) * 255)).toNat := by
  have h0 : (0:ℚ) ≤ min 1 (max 0 x) := le_min (by norm_num) (le_max_left 0 x)
  have h1 : min 1 (max 0 x) ≤ 1 := min_le_left _ _
  have hm : (0:ℚ) ≤ 255 * min 1 (max 0 x) := by nlinarith
  have hz0 : 0 ≤ ⌊(255:ℚ) * min 1 (max 0 x) + 1 / 2⌋ :=
    Int.floor_nonneg.mpr (by linarith)
  have hz255 : ⌊(255:ℚ) * min 1 (max 0 x) + 1 / 2⌋ ≤ 255 := by
    have hlt : ((255:ℚ) * min 1 (max 0 x) + 1 / 2) < ((256 : ℤ) : ℚ) := by
      push_cast
      linarith
    have h2 := Int.floor_lt.mpr hlt
    omega
  simp only [FVal.clamp01, FVal.scale, FVal.round]
  rw [if_pos hm]
  simp only [FVal.toU8]
  rw [if_neg (not_lt.mpr (show (0:ℚ) ≤
    ((⌊(255:ℚ) * min 1 (max 0 x) + 1 / 2⌋ : ℤ) : ℚ) from by
      exact_mod_cast hz0))]
  rw [Int.floor_intCast]
  rw [roundHalfAway, if_pos (by linarith : (0:ℚ) ≤ min 1 (max 0 x) * 255)]
  rw [mul_comm (min 1 (max 0 x)) 255]
  exact Nat.min_eq_right (Int.toNat_le.mpr (by exact_mod_cast hz255))

theorem convert_hexQ_eq_spec (c : ColorYCbCr) :
    convert_hexQ c = spec_convert_hex c.y c.cb c.cr := by
  have e2 : c.y + -(0.344136 * c.cb) + -(0.714136 * c.cr) =
      c.y - 0.344136 * c.cb - 0.714136 * c.cr := by ring
  show String.mk ('#' ::
      (hexByte ((FVal.scale 255 (FVal.clamp01
          (FVal.fin (c.y + 1.402 * c.cr)))).round).toU8 ++
       hexByte ((FVal.scale 255 (FVal.clamp01
          (FVal.fin (c.y + -(0.344136 * c.cb) +
            -(0.714136 * c.cr))))).round).toU8 ++
       hexByte ((FVal.scale 255 (FVal.clamp01
          (FVal.fin (c.y + 1.772 * c.cb)))).round).toU8)) =
    spec_convert_hex c.y c.cb c.cr
  rw [channel_fin_eq, channel_fin_eq, channel_fin_eq, e2]
  rfl

/-- C6: for every finite YCbCr triple, the rendering computes
r = y + 1.402·cr, g = y − 0.344136·cb − 0.714136·cr, b = y + 1.772·cb,
clamps each channel to [0,1], scales to [0,255], rounds to the nearest
integer (ties away from zero), and formats the result as `#` followed
by six uppercase, zero-padded hex digits (exact-rational model of
`f64`). -/
theorem convert_hex_matches_spec (y cb cr : ℚ) :
    convert_hex ⟨.fin y, .fin cb, .fin cr⟩ = spec_convert_hex y cb cr :=
  convert_hexQ_eq_spec ⟨y, cb, cr⟩

/-- The pre-clamp inverse R channel computed by `convert_hex`
(main.rs line 56). -/
def inv_r_norm (c : ColorYCbCr) : ℚ := c.y + 1.402 * c.cr

/-- The pre-clamp inverse G channel computed by `convert_hex`
(main.rs line 57). -/
def inv_g_norm (c : ColorYCbCr) : ℚ :=
  c.y - 0.344136 * c.cb - 0.714136 * c.cr

/-- The pre-clamp inverse B channel computed by `convert_hex`
(main.rs line 58). -/
def inv_b_norm (c : ColorYCbCr) : ℚ := c.y + 1.772 * c.cb

/-- C8: for every valid 8-bit RGB triple, converting to YCbCr and
rendering back recovers each channel exactly (in particular within ±1),
and the [0,1] clamp is never exercised: each pre-clamp inverse channel
already lies in [0,1]. -/
theorem ycbcr_roundtrip_exact (r g b : ℕ)
    (hr : r ≤ 255) (hg : g ≤ 255) (hb : b ≤ 255) :
    (0 ≤ inv_r_norm (convert_ycbcr ⟨r, g, b⟩) ∧
      inv_r_norm (convert_ycbcr ⟨r, g, b⟩) ≤ 1) ∧
    (0 ≤ inv_g_norm (convert_ycbcr ⟨r, g, b⟩) ∧
      inv_g_norm (convert_ycbcr ⟨r, g, b⟩) ≤ 1) ∧
    (0 ≤ inv_b_norm (convert_ycbcr ⟨r, g, b⟩) ∧
      inv_b_norm (convert_ycbcr ⟨r, g, b⟩) ≤ 1) ∧
    convert_hexQ (convert_ycbcr ⟨r, g, b⟩) =
      String.mk ('#' :: (hexByte r ++ hexByte g ++ hexByte b)) := by
  have hrq0 : (0:ℚ) ≤ (r:ℚ) := Nat.cast_nonneg r
  have hrq1 : (r:ℚ) ≤ 255 := by exact_mod_cast hr
  have hgq0 : (0:ℚ) ≤ (g:ℚ) := Nat.cast_nonneg g
  have hgq1 : (g:ℚ) ≤ 255 := by exact_mod_cast hg
  have hbq0 : (0:ℚ) ≤ (b:ℚ) := Nat.cast_nonneg b
  have hbq1 : (b:ℚ) ≤ 255 := by exact_mod_cast hb
  have hy : (convert_ycbcr ⟨r, g, b⟩).y =
      0.299 * ((r:ℚ)/255) + 0.587 * ((g:ℚ)/255) + 0.114 * ((b:ℚ)/255) := rfl
  have hcb : (convert_ycbcr ⟨r, g, b⟩).cb =
      0.564 * ((b:ℚ)/255 - (0.299 * ((r:ℚ)/255) + 0.587 * ((g:ℚ)/255) +
        0.114 * ((b:ℚ)/255))) := rfl
  have hcr : (convert_ycbcr ⟨r, g, b⟩).cr =
      0.713 * ((r:ℚ)/255 - (0.299 * ((r:ℚ)/255) + 0.587 * ((g:ℚ)/255) +
        0.114 * ((b:ℚ)/255))) := rfl
  have hR0 : 0 ≤ inv_r_norm (convert_ycbcr ⟨r, g, b⟩) := by
    unfold inv_r_norm; rw [hy, hcr]; linarith
  have hR1 : inv_r_norm (convert_ycbcr ⟨r, g, b⟩) ≤ 1 := by
    unfold inv_r_norm; rw [hy, hcr]; linarith
  have hG0 : 0 ≤ inv_g_norm (convert_ycbcr ⟨r, g, b⟩) := by
    unfold inv_g_norm; rw [hy, hcb, hcr]; linarith
  have hG1 : inv_g_norm (convert_ycbcr ⟨r, g, b⟩) ≤ 1 := by
    unfold inv_g_norm; rw [hy, hcb, hcr]; linarith
  have hB0 : 0 ≤ inv_b_norm (convert_ycbcr ⟨r, g, b⟩) := by
    unfold inv_b_norm; rw [hy, hcb]; linarith
  have hB1 : inv_b_norm (convert_ycbcr ⟨r, g, b⟩) ≤ 1 := by
    unfold inv_b_norm; rw [hy, hcb]; linarith
  have hbyteR :
      (roundHalfAway (min 1 (max 0 (inv_r_norm (convert_ycbcr ⟨r, g, b⟩))) *
        255)).toNat = r := by
    rw [max_eq_right hR0, min_eq_right hR1, roundHalfAway,
      if_pos (mul_nonneg hR0 (by norm_num))]
    have hfl : ⌊inv_r_norm (convert_ycbcr ⟨r, g, b⟩) * 255 + 1 / 2⌋ =
        (r : ℤ) := by
      rw [Int.floor_eq_iff]
      constructor
      · push_cast
        unfold inv_r_norm; rw [hy, hcr]; linarith
      · push_cast
        unfold inv_r_norm; rw [hy, hcr]; linarith
    rw [hfl]
    simp
  have hbyteG :
      (roundHalfAway (min 1 (max 0 (inv_g_norm (convert_ycbcr ⟨r, g, b⟩))) *
        255)).toNat = g := by
    rw [max_eq_right hG0, min_eq_right hG1, roundHalfAway,
      if_pos (mul_nonneg hG0 (by norm_num))]
    have hfl : ⌊inv_g_norm (convert_ycbcr ⟨r, g, b⟩) * 255 + 1 / 2⌋ =
        (g : ℤ) := by
      rw [Int.floor_eq_iff]
      constructor
      · push_cast
        unfold inv_g_norm; rw [hy, hcb, hcr]; linarith
      · push_cast
        unfold inv_g_norm; rw [hy, hcb, hcr]; linarith
    rw [hfl]
    simp
  have hbyteB :
      (roundHalfAway (min 1 (max 0 (inv_b_norm (convert_ycbcr ⟨r, g, b⟩))) *
        255)).toNat = b := by
    rw [max_eq_right hB0, min_eq_right hB1, roundHalfAway,
      if_pos (mul_nonneg hB0 (by norm_num))]
    have hfl : ⌊inv_b_norm (convert_ycbcr ⟨r, g, b⟩) * 255 + 1 / 2⌋ =
        (b : ℤ) := by
      rw [Int.floor_eq_iff]
      constructor
      · push_cast
        unfold inv_b_norm; rw [hy, hcb]; linarith
      · push_cast
        unfold inv_b_norm; rw [hy, hcb]; linarith
    rw [hfl]
    simp
  refine ⟨⟨hR0, hR1⟩, ⟨hG0, hG1⟩, ⟨hB0, hB1⟩, ?_⟩
  have hstr : convert_hexQ (convert_ycbcr ⟨r, g, b⟩) =
      String.mk ('#' ::
        (hexByte (roundHalfAway (min 1 (max 0
            (inv_r_norm (convert_ycbcr ⟨r, g, b⟩))) * 255)).toNat ++
         hexByte (roundHalfAway (min 1 (max 0
            (inv_g_norm (convert_ycbcr ⟨r, g, b⟩))) * 255)).toNat ++
         hexByte (roundHalfAway (min 1 (max 0
            (inv_b_norm (convert_ycbcr ⟨r, g, b⟩))) * 255)).toNat)) := by
    rw [convert_hexQ_eq_spec]
    rfl
  rw [hstr, hbyteR, hbyteG, hbyteB]

/-- Witness for C8 at the concrete triple (254, 7, 19). -/
theorem ycbcr_roundtrip_exact_witness :
    (254 ≤ 255 ∧ 7 ≤ 255 ∧ 19 ≤ 255) ∧
    ((0 ≤ inv_r_norm (convert_ycbcr ⟨254, 7, 19⟩) ∧
      inv_r_norm (convert_ycbcr ⟨254, 7, 19⟩) ≤ 1) ∧
     (0 ≤ inv_g_norm (convert_ycbcr ⟨254, 7, 19⟩) ∧
      inv_g_norm (convert_ycbcr ⟨254, 7, 19⟩) ≤ 1) ∧
     (0 ≤ inv_b_norm (convert_ycbcr ⟨254, 7, 19⟩) ∧
      inv_b_norm (convert_ycbcr ⟨254, 7, 19⟩) ≤ 1) ∧
     convert_hexQ (convert_ycbcr ⟨254, 7, 19⟩) =
       String.mk ('#' :: (hexByte 254 ++ hexByte 7 ++ hexByte 19))) :=
  ⟨⟨by decide, by decide, by decide⟩,
    ycbcr_roundtrip_exact 254 7 19 (by decide) (by decide) (by decide)⟩
